import Mathlib

/-!
Verification of the regexlint rule-checking engine (regexlint/checkers.py).

The checker functions, the runner and the alternation possibility expander
are translated from regexlint/checkers.py.  The tree that checkers consume
is produced by the external parser module, which is not part of the checked
sources; its read-only node contract (type tag, raw text, span offsets,
payload, children, parent link) is modelled from the specification, §3.

Python specifics are modelled as follows: a node start offset may be absent
(None on the synthetic root), hence `Option Nat`; a diagnostic position is
the value the code stores, hence also `Option Nat`; a checker mutating the
shared `errs` list becomes a function from the incoming list to the updated
list, paired with an optional exception description (`Option String`) for
the failures the runner converts into code-999 diagnostics.  Generators are
modelled by the trace they produce: the list of yielded values paired with
an optional exception terminating the iteration.
-/

/-- Modelled from the spec: the token classification of the absent parser
module (spec §3).  Only the tags the checkers inspect are distinguished;
every other tag is `OtherTok`. -/
inductive TokType where
  | Literal
  | Literals
  | Newline
  | Suspicious
  | Directive
  | Progression
  | Alternation
  | CharClass
  | OpenCapturing
  | OpenNamedCapturing
  | Repetition
  | OtherTok
  deriving DecidableEq, Repr

/-- Modelled from the spec: the category-membership test on token types
(spec §3, a type may belong to a logical group of types).  A named
capturing group belongs to the capturing-group category (spec §4.3 rule
107 counts named and unnamed groups alike); otherwise membership is
identity of tags. -/
def typeIn (t cat : TokType) : Bool :=
  t == cat || (t == TokType.OpenNamedCapturing && cat == TokType.OpenCapturing)

/-- Modelled from the spec: a parse-tree node (spec §3).  `strt` is the
start offset (`none` when absent, e.g. on the synthetic root), `fin` the
end offset, `raw` the full original pattern text carried by the root,
`dat` the literal payload, `children` the ordered children, and `chars`
the char-class member list: an element `(a, none)` is a lone literal node,
`(a, some b)` is a CharRange with endpoints `a` and `b`. -/
inductive Node where
  | mk (ty : TokType) (dat : String) (strt : Option Nat) (fin : Nat)
       (raw : String) (children : List Node)
       (chars : List (Node × Option Node)) : Node

def Node.ty : Node → TokType
  | .mk t _ _ _ _ _ _ => t

def Node.dat : Node → String
  | .mk _ d _ _ _ _ _ => d

def Node.strt : Node → Option Nat
  | .mk _ _ s _ _ _ _ => s

def Node.fin : Node → Nat
  | .mk _ _ _ e _ _ _ => e

def Node.raw : Node → String
  | .mk _ _ _ _ r _ _ => r

def Node.children : Node → List Node
  | .mk _ _ _ _ _ cs _ => cs

def Node.chars : Node → List (Node × Option Node)
  | .mk _ _ _ _ _ _ ch => ch

mutual
/-- Pre-order document traversal of a node, pairing every visited node with
its parent (`none` for the node the traversal started at).  This realises
the `next()` chain of the node contract together with the `parent()`
back-reference (spec §3). -/
def preorderP : Option Node → Node → List (Option Node × Node)
  | par, Node.mk t d s e r cs ch =>
    (par, Node.mk t d s e r cs ch) ::
      preorderPList (some (Node.mk t d s e r cs ch)) cs

def preorderPList : Option Node → List Node → List (Option Node × Node)
  | _, [] => []
  | par, c :: cs => preorderP par c ++ preorderPList par cs
end

/-- find_all_by_type from checkers.py, keeping each found node with its
parent so that checkers may consult `parent()`. -/
def find_all_by_typeP (reg : Node) (t : TokType) : List (Option Node × Node) :=
  (preorderP none reg).filter fun pn => typeIn pn.2.ty t

/-- find_all_by_type from checkers.py: all descendants of `reg` (itself
included) in document order whose type belongs to category `t`. -/
def find_all_by_type (reg : Node) (t : TokType) : List Node :=
  (find_all_by_typeP reg t).map fun pn => pn.2

/-- One diagnostic, the 4-tuple (code, severity, position, message) of the
output contract.  The position is the exact value the code stores, which
for some checkers is a node start offset that may be absent. -/
structure Diag where
  num : String
  level : Nat
  pos : Option Nat
  msg : String
  deriving DecidableEq, Repr

/-- logging.ERROR. -/
def ERROR : Nat := 40

/-- Python repr of a short string, used by the %r message formats. -/
def pyRepr (s : String) : String := "\x27" ++ s ++ "\x27"

/-- Python %d rendering of a possibly-absent offset. -/
def pyStr : Option Nat → String
  | some n => toString n
  | none => "None"

/-- First character of a payload known to have length one. -/
def firstChar (s : String) : Char := s.toList.headD (Char.ofNat 0)

/-- Modelled from the spec: the coarse character-category function
`charclass` of the absent parser module (spec §4.3 rule 104, §9): letters
form one category, digits another, everything else a third. -/
def charclass (c : Char) : Nat :=
  if c.isAlpha then 0 else if c.isDigit then 1 else 2

/-- Python str.find for a single character, as a character index (`none`
for Python -1). -/
def strFind (s : String) (c : Char) : Option Nat :=
  s.toList.findIdx? fun x => x == c

/-- Sequencing of a Python for-loop whose body may append diagnostics and
may raise: the loop stops at the first exception, keeping the diagnostics
already appended. -/
def foldExc (f : α → List Diag → List Diag × Option String) :
    List α → List Diag → List Diag × Option String
  | [], errs => (errs, none)
  | x :: xs, errs =>
    match f x errs with
    | (e2, some ex) => (e2, some ex)
    | (e2, none) => foldExc f xs e2

/-- check_no_nulls from checkers.py. -/
def check_no_nulls (reg : Node) (errs : List Diag) : List Diag × Option String :=
  match strFind reg.raw '\x00' with
  | some pos =>
    (errs ++ [⟨"101", ERROR, some pos, "Null characters not allowed (python docs)"⟩], none)
  | none => (errs, none)

/-- check_no_newlines from checkers.py. -/
def check_no_newlines (reg : Node) (errs : List Diag) : List Diag × Option String :=
  let directives := find_all_by_type reg TokType.Directive
  if !directives.isEmpty && directives.any (fun d => d.dat.contains 'x') then
    (errs, none)
  else
    match strFind reg.raw '\n' with
    | some pos =>
      (errs ++ [⟨"102", ERROR, some pos,
        "Newline characters not allowed (java compat, use a rawstring)"⟩], none)
    | none => (errs, none)

/-- The diagnostic check_no_empty_alternations emits for one empty branch. -/
def mk103 (p : Nat) : Diag :=
  ⟨"103", ERROR, some p,
    "Empty string allowed in alternation starting at position " ++ toString p ++ ", use *"⟩

/-- check_no_empty_alternations from checkers.py. -/
def check_no_empty_alternations (reg : Node) (errs : List Diag) :
    List Diag × Option String :=
  (errs ++ ((find_all_by_typeP reg TokType.Progression).filter fun pn =>
      pn.2.children.isEmpty &&
        (match pn.1 with
         | some p => p.ty == TokType.Alternation
         | none => false)).map
      (fun pn => mk103 (pn.2.strt.getD 0)), none)

/-- Message of the not-homogeneous branch of rule 104. -/
def msgHom (p : Option Nat) : String :=
  "Range in character class is not homogeneous near position " ++ pyStr p

/-- Message of the goes-backwards branch of rule 104. -/
def msgBack (p : Option Nat) : String :=
  "Range in character class goes backwards near position " ++ pyStr p

/-- The body of the inner loop of check_charclass_homogeneous_ranges for a
single element of a char class: a lone literal is skipped; a CharRange with
two literal endpoints is asserted to carry single-character payloads and
then checked for homogeneity and direction; a range with no or one literal
endpoint yields one diagnostic at position 0 keyed to the class start. -/
def rangePair (cstrt : Option Nat) (item : Node × Option Node)
    (errs : List Diag) : List Diag × Option String :=
  match item with
  | (_, none) => (errs, none)
  | (a, some b) =>
    if typeIn a.ty TokType.Literal && typeIn b.ty TokType.Literal then
      if a.dat.length ≠ 1 then (errs, some "AssertionError()")
      else if b.dat.length ≠ 1 then (errs, some "AssertionError()")
      else
        let e1 :=
          if charclass (firstChar a.dat) ≠ charclass (firstChar b.dat) then
            errs ++ [⟨"104", ERROR, a.strt, msgHom a.strt⟩]
          else errs
        let e2 :=
          if (firstChar a.dat).toNat ≥ (firstChar b.dat).toNat then
            e1 ++ [⟨"104", ERROR, a.strt, msgBack a.strt⟩]
          else e1
        (e2, none)
    else if !(typeIn a.ty TokType.Literal) && !(typeIn b.ty TokType.Literal) then
      (errs ++ [⟨"104", ERROR, some 0, msgHom cstrt⟩], none)
    else
      (errs ++ [⟨"104", ERROR, some 0, msgHom cstrt⟩], none)

/-- check_charclass_homogeneous_ranges from checkers.py. -/
def check_charclass_homogeneous_ranges (reg : Node) (errs : List Diag) :
    List Diag × Option String :=
  foldExc (fun c => foldExc (rangePair c.strt) c.chars)
    (find_all_by_type reg TokType.CharClass) errs

/-- The literal-like token test of check_prefix_ordering: Literal,
Literals, Newline or Suspicious. -/
def litLike (x : Node) : Bool :=
  typeIn x.ty TokType.Literal || typeIn x.ty TokType.Literals ||
  typeIn x.ty TokType.Newline || typeIn x.ty TokType.Suspicious

/-- The concatenated literal text of one alternation branch. -/
def branchText (i : Node) : String :=
  String.join (i.children.map Node.dat)

/-- Python str.startswith: `pyStartsWith t p` is true when `p` is a prefix
of `t` (equal included), computed on the character lists. -/
def pyStartsWith (t p : String) : Bool :=
  p.toList.isPrefixOf t.toList

/-- The diagnostic check_prefix_ordering emits for one offending
alternation. -/
def mk105 (nst : Option Nat) (p t : String) : Diag :=
  ⟨"105", ERROR, nst,
    "Potential out of order alternation between " ++ pyRepr p ++ " and " ++ pyRepr t⟩

/-- Inner loop of check_prefix_ordering over the branches of one
Alternation node.  The middle component is true when the loop executed the
whole-checker early return (a branch held a non-literal token); the last
component is the assertion failure raised when a child is not a
Progression. -/
def ordInner (nst : Option Nat) : List Node → Option String → List Diag →
    List Diag × Bool × Option String
  | [], _, errs => (errs, false, none)
  | i :: rest, some p, errs =>
    if i.ty ≠ TokType.Progression then (errs, false, some "AssertionError()")
    else if !(i.children.all litLike) then (errs, true, none)
    else if pyStartsWith (branchText i) p then
      (errs ++ [mk105 nst p (branchText i)], false, none)
    else ordInner nst rest (some (branchText i)) errs
  | i :: rest, none, errs =>
    if i.ty ≠ TokType.Progression then (errs, false, some "AssertionError()")
    else if !(i.children.all litLike) then (errs, true, none)
    else ordInner nst rest (some (branchText i)) errs

/-- Outer loop of check_prefix_ordering over all Alternation nodes; an
early return from the inner loop ends the whole checker. -/
def ordOuter : List Node → List Diag → List Diag × Option String
  | [], errs => (errs, none)
  | n :: rest, errs =>
    match ordInner n.strt n.children none errs with
    | (e2, _, some ex) => (e2, some ex)
    | (e2, true, none) => (e2, none)
    | (e2, false, none) => ordOuter rest e2

/-- check_prefix_ordering from checkers.py. -/
def check_prefix_ordering (reg : Node) (errs : List Diag) :
    List Diag × Option String :=
  ordOuter (find_all_by_type reg TokType.Alternation) errs

/-- check_no_python_named_capture_groups from checkers.py: one diagnostic
at the first named capturing group, then break. -/
def check_no_python_named_capture_groups (reg : Node) (errs : List Diag) :
    List Diag × Option String :=
  match find_all_by_type reg TokType.OpenNamedCapturing with
  | [] => (errs, none)
  | n :: _ =>
    (errs ++ [⟨"106", ERROR, n.strt, "Python named capture group"⟩], none)

/-- manual_toknum from checkers.py. -/
def manual_toknum (reg : Node) (errs : List Diag) (desired_number : Nat) :
    List Diag × Option String :=
  let n := (find_all_by_type reg TokType.OpenCapturing).length
  if n ≠ desired_number then
    (errs ++ [⟨"107", ERROR, some 0,
      "Wrong number of groups(" ++ toString n ++ ") for bygroups(" ++
        toString desired_number ++ ")"⟩], none)
  else (errs, none)

/-- The message of rule 108. -/
def msg108 : String := "Nested/gapped capture groups but using bygroups"

/-- Loop of manual_overlap over the capturing-group nodes with their
parents, carrying prev_end.  Accessing the type of an absent parent is the
attribute failure Python would raise. -/
def overlapLoop : List (Option Node × Node) → Nat → List Diag →
    List Diag × Nat × Option String
  | [], prevEnd, errs => (errs, prevEnd, none)
  | (par, i) :: rest, prevEnd, errs =>
    let e2 := if i.strt ≠ some prevEnd then errs ++ [⟨"108", ERROR, i.strt, msg108⟩] else errs
    match par with
    | none => (e2, i.fin, some "AttributeError()")
    | some p =>
      overlapLoop rest (if p.ty = TokType.Repetition then i.fin + p.dat.length else i.fin) e2

/-- manual_overlap from checkers.py. -/
def manual_overlap (reg : Node) (errs : List Diag) (_desired_number : Nat) :
    List Diag × Option String :=
  match overlapLoop (find_all_by_typeP reg TokType.OpenCapturing) 0 errs with
  | (e2, _, some ex) => (e2, some ex)
  | (e2, prevEnd, none) =>
    if prevEnd ≠ reg.fin then (e2 ++ [⟨"108", ERROR, some prevEnd, msg108⟩], none)
    else (e2, none)

/-- One element of an alternation branch handed to the possibility
expander: a structural Node, a CharRange, or a literal token tuple whose
second component is the literal text (the first component of the Python
tuple is never inspected). -/
inductive AltElem where
  | node (n : Node)
  | crange (a b : Node)
  | lit (s : String)

/-- The helper generator of the possibility expander, as the trace of its
iteration: the strings it yields in order, then the NotImplementedError it
raises on a structural Node or a CharRange (raised before anything of the
current branch is yielded, because the tail of the branch is forced before
the first concatenation is produced). -/
def alternation_helper : List AltElem → List String × Option String
  | [] => ([""], none)
  | AltElem.node _ :: _ =>
    ([], some "NotImplementedError(Cant handle alternations with Nodes)")
  | AltElem.crange _ _ :: _ =>
    ([], some "NotImplementedError(Cant handle alternations with CharRange)")
  | AltElem.lit s :: rest =>
    match alternation_helper rest with
    | (js, ex) => (js.map (fun j => s ++ j), ex)

/-- get_alternation_possibilities from checkers.py, as the trace of the
generator: branches are expanded in order and iteration ends at the first
exception, keeping the strings already yielded. -/
def get_alternation_possibilities : List (List AltElem) → List String × Option String
  | [] => ([], none)
  | i :: rest =>
    match alternation_helper i with
    | (js, some ex) => (js, some ex)
    | (js, none) =>
      match get_alternation_possibilities rest with
      | (ks, ex) => (js ++ ks, ex)

/-- The checkers run_all_checkers discovers: every function of the module
whose name starts with check_, with its name.  Python enumerates the
module dictionary in an unspecified but fixed order; the model fixes
definition order. -/
def checkerList : List (String × (Node → List Diag → List Diag × Option String)) :=
  [("check_no_nulls", check_no_nulls),
   ("check_no_newlines", check_no_newlines),
   ("check_no_empty_alternations", check_no_empty_alternations),
   ("check_charclass_homogeneous_ranges", check_charclass_homogeneous_ranges),
   ("check_prefix_ordering", check_prefix_ordering),
   ("check_no_python_named_capture_groups", check_no_python_named_capture_groups)]

/-- The code-999 diagnostic the runner appends when checker `name` raised
`ex`.  Python formats the function object itself into the message; the
model stands the checker name in for it. -/
def err999 (name ex : String) : Diag :=
  ⟨"999", ERROR, some 0, "Checker " ++ name ++ " encountered error parsing: " ++ ex⟩

/-- One iteration of the runner loop: invoke checker `kf` on the shared
diagnostics list; on an exception keep what it appended and add the
code-999 diagnostic. -/
def runStep (regex : Node) (errs : List Diag)
    (kf : String × (Node → List Diag → List Diag × Option String)) : List Diag :=
  match kf.2 regex errs with
  | (e2, none) => e2
  | (e2, some ex) => e2 ++ [err999 kf.1 ex]

/-- run_all_checkers from checkers.py: every discovered checker is invoked
on the shared diagnostics list; a raising checker keeps what it already
appended and contributes one code-999 diagnostic, and the remaining
checkers still run. -/
def run_all_checkers (regex : Node) : List Diag :=
  checkerList.foldl (runStep regex) []

/-- A checker body only appends to the shared diagnostics list: its new
diagnostics and its exception do not depend on what is already there. -/
def AppendsF (f : α → List Diag → List Diag × Option String) : Prop :=
  ∀ x errs, f x errs = (errs ++ (f x []).1, (f x []).2)

theorem foldExc_appends {f : α → List Diag → List Diag × Option String}
    (hf : AppendsF f) (xs : List α) :
    ∀ errs, foldExc f xs errs = (errs ++ (foldExc f xs []).1, (foldExc f xs []).2) := by
  induction xs with
  | nil => intro errs; simp [foldExc]
  | cons x xs ih =>
    intro errs
    simp only [foldExc]
    rw [hf x errs, hf x []]
    cases hx : (f x []).2 with
    | some ex => simp
    | none =>
      simp only [List.nil_append]
      rw [ih (errs ++ (f x []).1), ih ((f x []).1)]
      simp [List.append_assoc]

theorem rangePair_appends (cstrt : Option Nat) : AppendsF (rangePair cstrt) := by
  intro item errs
  match item with
  | (a, none) => simp [rangePair]
  | (a, some b) =>
    simp only [rangePair]
    split
    · split
      · simp
      · split
        · simp
        · by_cases h1 : charclass (firstChar a.dat) ≠ charclass (firstChar b.dat) <;>
            by_cases h2 : (firstChar a.dat).toNat ≥ (firstChar b.dat).toNat <;>
            simp [h1, h2]
    · split <;> simp

theorem charclassChecker_appends :
    AppendsF (fun (reg : Node) => check_charclass_homogeneous_ranges reg) := by
  intro reg errs
  have hf : AppendsF (fun (c : Node) => foldExc (rangePair c.strt) c.chars) := by
    intro c e
    exact foldExc_appends (rangePair_appends c.strt) c.chars e
  exact foldExc_appends hf (find_all_by_type reg TokType.CharClass) errs

theorem ordInner_appends (nst : Option Nat) (cs : List Node) :
    ∀ prev errs, ordInner nst cs prev errs =
      (errs ++ (ordInner nst cs prev []).1, (ordInner nst cs prev []).2) := by
  induction cs with
  | nil => intro prev errs; simp [ordInner]
  | cons i rest ih =>
    intro prev errs
    cases prev with
    | some p =>
      simp only [ordInner]
      split
      · simp
      · split
        · simp
        · split
          · simp
          · exact ih (some (branchText i)) errs
    | none =>
      simp only [ordInner]
      split
      · simp
      · split
        · simp
        · exact ih (some (branchText i)) errs

theorem ordOuter_appends (ns : List Node) :
    ∀ errs, ordOuter ns errs = (errs ++ (ordOuter ns []).1, (ordOuter ns []).2) := by
  induction ns with
  | nil => intro errs; simp [ordOuter]
  | cons n rest ih =>
    intro errs
    simp only [ordOuter]
    rw [ordInner_appends n.strt n.children none errs,
        ordInner_appends n.strt n.children none []]
    cases hx : (ordInner n.strt n.children none []).2 with
    | mk flag ex =>
      cases ex with
      | some e => simp
      | none =>
        cases flag with
        | true => simp
        | false =>
          simp only [List.nil_append]
          rw [ih (errs ++ (ordInner n.strt n.children none []).1),
              ih ((ordInner n.strt n.children none []).1)]
          simp [List.append_assoc]

theorem nulls_appends : AppendsF check_no_nulls := by
  intro reg errs
  unfold check_no_nulls
  cases h : strFind reg.raw '\x00' <;> simp

theorem newlines_appends : AppendsF check_no_newlines := by
  intro reg errs
  unfold check_no_newlines
  by_cases hd : (!(find_all_by_type reg TokType.Directive).isEmpty &&
      (find_all_by_type reg TokType.Directive).any fun d => d.dat.contains 'x') = true
  · simp [hd]
  · cases h : strFind reg.raw '\n' <;> simp [hd, h]

theorem emptyalt_appends : AppendsF check_no_empty_alternations := by
  intro reg errs
  simp [check_no_empty_alternations]

theorem ord_appends : AppendsF check_prefix_ordering := by
  intro reg errs
  unfold check_prefix_ordering
  exact ordOuter_appends (find_all_by_type reg TokType.Alternation) errs

theorem named_appends : AppendsF check_no_python_named_capture_groups := by
  intro reg errs
  unfold check_no_python_named_capture_groups
  cases h : find_all_by_type reg TokType.OpenNamedCapturing <;> simp

/-- Diagnostics produced by the body of a loop never carry the reserved
runner code, propagated through the loop. -/
theorem foldExc_codes {f : α → List Diag → List Diag × Option String}
    (hf : AppendsF f) {P : Diag → Prop}
    (hP : ∀ x d, d ∈ (f x []).1 → P d) :
    ∀ (xs : List α) (d : Diag), d ∈ (foldExc f xs []).1 → P d := by
  intro xs
  induction xs with
  | nil => simp [foldExc]
  | cons x xs ih =>
    intro d hd
    simp only [foldExc] at hd
    rcases hfx : f x [] with ⟨δ, ex⟩
    rw [hfx] at hd
    cases ex with
    | some e =>
      simp only at hd
      exact hP x d (by rw [hfx]; exact hd)
    | none =>
      simp only at hd
      rw [foldExc_appends hf xs δ] at hd
      simp only [List.mem_append] at hd
      rcases hd with hd | hd
      · exact hP x d (by rw [hfx]; exact hd)
      · exact ih d hd

theorem rangePair_codes (cstrt : Option Nat) (item : Node × Option Node) :
    ∀ d ∈ (rangePair cstrt item []).1, d.num = "104" := by
  match item with
  | (a, none) => simp [rangePair]
  | (a, some b) =>
    simp only [rangePair]
    split
    · split
      · simp
      · split
        · simp
        · by_cases h1 : charclass (firstChar a.dat) ≠ charclass (firstChar b.dat) <;>
            by_cases h2 : (firstChar a.dat).toNat ≥ (firstChar b.dat).toNat <;>
            simp [h1, h2]
    · split <;> simp

theorem charclass_codes (reg : Node) :
    ∀ d ∈ (check_charclass_homogeneous_ranges reg []).1, d.num = "104" := by
  intro d hd
  have hf : AppendsF (fun (c : Node) => foldExc (rangePair c.strt) c.chars) :=
    fun c e => foldExc_appends (rangePair_appends c.strt) c.chars e
  exact foldExc_codes hf
    (fun c d hdc => foldExc_codes (rangePair_appends c.strt)
      (rangePair_codes c.strt) c.chars d hdc)
    (find_all_by_type reg TokType.CharClass) d hd

theorem ordInner_codes (nst : Option Nat) (cs : List Node) :
    ∀ prev d, d ∈ (ordInner nst cs prev []).1 → d.num = "105" := by
  induction cs with
  | nil => simp [ordInner]
  | cons i rest ih =>
    intro prev d
    cases prev with
    | some p =>
      simp only [ordInner]
      split
      · simp
      · split
        · simp
        · split
          · intro hd
            simp only [List.nil_append, List.mem_singleton] at hd
            subst hd
            rfl
          · exact ih (some (branchText i)) d
    | none =>
      simp only [ordInner]
      split
      · simp
      · split
        · simp
        · exact ih (some (branchText i)) d

theorem ordOuter_codes (ns : List Node) :
    ∀ d, d ∈ (ordOuter ns []).1 → d.num = "105" := by
  induction ns with
  | nil => simp [ordOuter]
  | cons n rest ih =>
    intro d
    simp only [ordOuter]
    rcases hx : ordInner n.strt n.children none [] with ⟨e2, flag, ex⟩
    have h1 : ∀ d, d ∈ e2 → d.num = "105" := by
      intro d hd
      exact ordInner_codes n.strt n.children none d (by rw [hx]; exact hd)
    cases ex with
    | some e =>
      intro hd
      simp only at hd
      exact h1 d hd
    | none =>
      cases flag with
      | true =>
        intro hd
        simp only at hd
        exact h1 d hd
      | false =>
        intro hd
        simp only at hd
        rw [ordOuter_appends rest e2] at hd
        simp only [List.mem_append] at hd
        rcases hd with hd | hd
        · exact h1 d hd
        · exact ih d hd

theorem nulls_codes (reg : Node) :
    ∀ d ∈ (check_no_nulls reg []).1, d.num = "101" := by
  unfold check_no_nulls
  cases h : strFind reg.raw '\x00' <;> simp

theorem newlines_codes (reg : Node) :
    ∀ d ∈ (check_no_newlines reg []).1, d.num = "102" := by
  unfold check_no_newlines
  by_cases hd : (!(find_all_by_type reg TokType.Directive).isEmpty &&
      (find_all_by_type reg TokType.Directive).any fun d => d.dat.contains 'x') = true
  · simp [hd]
  · cases h : strFind reg.raw '\n' <;> simp [hd, h]

theorem emptyalt_codes (reg : Node) :
    ∀ d ∈ (check_no_empty_alternations reg []).1, d.num = "103" := by
  simp only [check_no_empty_alternations, List.nil_append]
  intro d hd
  simp only [List.mem_map] at hd
  rcases hd with ⟨pn, _, hpn⟩
  rw [← hpn]
  rfl

theorem named_codes (reg : Node) :
    ∀ d ∈ (check_no_python_named_capture_groups reg []).1, d.num = "106" := by
  unfold check_no_python_named_capture_groups
  cases h : find_all_by_type reg TokType.OpenNamedCapturing <;> simp

/-- The block of diagnostics one discovered checker contributes to the
output of run_all_checkers: what it appended itself, followed by the
code-999 diagnostic when it raised. -/
def contrib (regex : Node)
    (kf : String × (Node → List Diag → List Diag × Option String)) : List Diag :=
  match kf.2 regex [] with
  | (δ, none) => δ
  | (δ, some ex) => δ ++ [err999 kf.1 ex]

theorem runFold_join (regex : Node) :
    ∀ (L : List (String × (Node → List Diag → List Diag × Option String))),
      (∀ kf ∈ L, AppendsF kf.2) → ∀ errs,
      L.foldl (runStep regex) errs = errs ++ (L.map (contrib regex)).flatten := by
  intro L
  induction L with
  | nil => intro _ errs; simp
  | cons kf L ih =>
    intro h errs
    simp only [List.foldl_cons, List.map_cons, List.flatten_cons]
    have hkf := h kf (by simp)
    have hstep : runStep regex errs kf = errs ++ contrib regex kf := by
      unfold runStep contrib
      rcases hfx : kf.2 regex [] with ⟨δ, ex⟩
      rw [hkf regex errs, hfx]
      cases ex <;> simp
    rw [hstep, ih (fun g hg => h g (List.mem_cons_of_mem _ hg)) (errs ++ contrib regex kf)]
    simp [List.append_assoc]

theorem runCount (regex : Node) :
    ∀ (L : List (String × (Node → List Diag → List Diag × Option String))),
      (∀ kf ∈ L, ∀ d ∈ (kf.2 regex []).1, d.num ≠ "999") →
      (((L.map (contrib regex)).flatten).filter (fun d => d.num == "999")).length =
        (L.filter (fun kf => ((kf.2 regex []).2).isSome)).length := by
  intro L
  induction L with
  | nil => intro _; simp
  | cons kf L ih =>
    intro h
    rcases hfx : kf.2 regex [] with ⟨δ, ex⟩
    have hδ : δ.filter (fun d => d.num == "999") = [] := by
      rw [List.filter_eq_nil_iff]
      intro a ha
      have := h kf (by simp) a (by rw [hfx]; exact ha)
      simp [this]
    have hrest := ih (fun g hg => h g (List.mem_cons_of_mem _ hg))
    cases ex with
    | none =>
      have hc : contrib regex kf = δ := by unfold contrib; rw [hfx]
      simp only [List.map_cons, List.flatten_cons, List.filter_append, List.length_append,
        hc, hδ, List.length_nil, List.filter_cons, hfx, Option.isSome_none]
      simpa using hrest
    | some e =>
      have hc : contrib regex kf = δ ++ [err999 kf.1 e] := by unfold contrib; rw [hfx]
      have h999 : (List.filter (fun d => d.num == "999") [err999 kf.1 e]) = [err999 kf.1 e] := by
        simp [err999]
      simp only [List.map_cons, List.flatten_cons, hc, List.append_assoc, List.filter_append,
        List.length_append, hδ, h999, List.length_nil, List.length_cons,
        List.filter_cons, hfx, Option.isSome_some, if_true, List.length_singleton]
      omega

/-- C1: for every input tree, run_all_checkers returns a list of
diagnostics and never propagates a failure: its output is exactly the
concatenation, over every discovered checker in registration order, of
that checker's own appended diagnostics followed — exactly when that
checker raised — by the single code-999 ERROR diagnostic at position 0
naming the checker and the captured failure (see err999); consequently
every remaining checker still contributes its block after a failing one,
and the number of code-999 diagnostics in the output equals the number of
checkers that raised. -/
theorem c1_runner_isolation (regex : Node) :
    run_all_checkers regex = (checkerList.map (contrib regex)).flatten ∧
    ((run_all_checkers regex).filter (fun d => d.num == "999")).length =
      (checkerList.filter (fun kf => ((kf.2 regex []).2).isSome)).length := by
  have happ : ∀ kf ∈ checkerList, AppendsF kf.2 := by
    intro kf hkf
    simp only [checkerList, List.mem_cons, List.not_mem_nil, or_false] at hkf
    rcases hkf with h | h | h | h | h | h <;> subst h
    · exact nulls_appends
    · exact newlines_appends
    · exact emptyalt_appends
    · exact charclassChecker_appends
    · exact ord_appends
    · exact named_appends
  have hcodes : ∀ kf ∈ checkerList, ∀ d ∈ (kf.2 regex []).1, d.num ≠ "999" := by
    intro kf hkf
    simp only [checkerList, List.mem_cons, List.not_mem_nil, or_false] at hkf
    rcases hkf with h | h | h | h | h | h <;> subst h <;> intro d hd
    · rw [nulls_codes regex d hd]; decide
    · rw [newlines_codes regex d hd]; decide
    · rw [emptyalt_codes regex d hd]; decide
    · rw [charclass_codes regex d hd]; decide
    · rw [ordOuter_codes (find_all_by_type regex TokType.Alternation) d hd]; decide
    · rw [named_codes regex d hd]; decide
  have hjoin : run_all_checkers regex = (checkerList.map (contrib regex)).flatten := by
    have h := runFold_join regex checkerList happ []
    simpa [run_all_checkers] using h
  refine ⟨hjoin, ?_⟩
  rw [hjoin]
  exact runCount regex checkerList hcodes

theorem findIdx?_go_first (p : α → Bool) :
    ∀ (l : List α) (k i : Nat) (x : α), l[i]? = some x → p x = true →
      (∀ j y, j < i → l[j]? = some y → p y = false) →
      List.findIdx? p l k = some (k + i) := by
  intro l
  induction l with
  | nil => intro k i x hx; simp at hx
  | cons a l ih =>
    intro k i x hx hp hfirst
    rw [List.findIdx?_cons]
    cases i with
    | zero =>
      rw [List.getElem?_cons_zero] at hx
      injection hx with hx
      subst hx
      simp [hp]
    | succ i =>
      have ha : p a = false := hfirst 0 a (Nat.succ_pos i) List.getElem?_cons_zero
      rw [ha]
      simp only [Bool.false_eq_true, if_false]
      have := ih (k + 1) i x (by simpa using hx) hp
        (fun j y hj hy => hfirst (j + 1) y (by omega) (by simpa using hy))
      rw [this]
      congr 1
      omega

theorem strFind_first (s : String) (c : Char) (i : Nat)
    (h1 : s.toList[i]? = some c)
    (h2 : ∀ j, j < i → s.toList[j]? ≠ some c) : strFind s c = some i := by
  unfold strFind
  have h := findIdx?_go_first (fun x => x == c) s.toList 0 i c h1 (by simp)
    (fun j y hj hy => by
      have hy2 : y ≠ c := fun hyc => h2 j hj (hyc ▸ hy)
      simpa using hy2)
  simpa using h

theorem strFind_none (s : String) (c : Char)
    (h : ∀ x ∈ s.toList, x ≠ c) : strFind s c = none := by
  unfold strFind
  rw [List.findIdx?_eq_none_iff]
  intro x hx
  simpa using h x hx

/-- C6: for every tree whose raw pattern text has its first null character
at index i, check_no_nulls appends exactly one diagnostic, with code 101,
severity ERROR and position i, and raises nothing; for a raw text with no
null character it appends nothing. -/
theorem c6_no_nulls (reg : Node) (errs : List Diag) :
    (∀ i : Nat, reg.raw.toList[i]? = some '\x00' →
        (∀ j, j < i → reg.raw.toList[j]? ≠ some '\x00') →
        check_no_nulls reg errs = (errs ++ [⟨"101", ERROR, some i,
          "Null characters not allowed (python docs)"⟩], none)) ∧
    ((∀ x ∈ reg.raw.toList, x ≠ '\x00') →
        check_no_nulls reg errs = (errs, none)) := by
  constructor
  · intro i h1 h2
    unfold check_no_nulls
    rw [strFind_first reg.raw '\x00' i h1 h2]
  · intro h
    unfold check_no_nulls
    rw [strFind_none reg.raw '\x00' h]

/-- A tree for the pattern a\x00b: a null character at raw index 1. -/
def regC6 : Node := Node.mk TokType.Progression "" (some 0) 3 "a\x00b" [] []

theorem c6_no_nulls_witness :
    regC6.raw.toList[1]? = some '\x00' ∧
    check_no_nulls regC6 [] = ([⟨"101", ERROR, some 1,
      "Null characters not allowed (python docs)"⟩], none) :=
  ⟨by decide,
   (c6_no_nulls regC6 []).1 1 (by decide)
     (by
       intro j hj
       have hj0 : j = 0 := by omega
       subst hj0
       decide)⟩

/-- C7: check_no_newlines appends nothing when some Directive node's
payload contains the verbose-mode flag character, regardless of newline
content; otherwise it appends exactly one code-102 ERROR diagnostic at the
index of the first newline of the raw text, and nothing when there is no
newline. -/
theorem c7_no_newlines (reg : Node) (errs : List Diag) :
    ((find_all_by_type reg TokType.Directive).any
        (fun d => d.dat.contains 'x') = true →
      check_no_newlines reg errs = (errs, none)) ∧
    ((find_all_by_type reg TokType.Directive).any
        (fun d => d.dat.contains 'x') = false →
      ∀ i : Nat, reg.raw.toList[i]? = some '\n' →
        (∀ j, j < i → reg.raw.toList[j]? ≠ some '\n') →
        check_no_newlines reg errs = (errs ++ [⟨"102", ERROR, some i,
          "Newline characters not allowed (java compat, use a rawstring)"⟩], none)) ∧
    ((find_all_by_type reg TokType.Directive).any
        (fun d => d.dat.contains 'x') = false →
      (∀ x ∈ reg.raw.toList, x ≠ '\n') →
        check_no_newlines reg errs = (errs, none)) := by
  refine ⟨?_, ?_, ?_⟩
  · intro hany
    have hne : (find_all_by_type reg TokType.Directive).isEmpty = false := by
      rcases List.any_eq_true.mp hany with ⟨d, hd, _⟩
      cases h : find_all_by_type reg TokType.Directive with
      | nil => rw [h] at hd; simp at hd
      | cons a l => simp
    unfold check_no_newlines
    simp [hne, hany]
  · intro hany i h1 h2
    unfold check_no_newlines
    rw [strFind_first reg.raw '\n' i h1 h2]
    simp [hany]
  · intro hany h
    unfold check_no_newlines
    rw [strFind_none reg.raw '\n' h]
    simp [hany]

/-- A tree for the pattern a\nb with no directive: a newline at raw
index 1. -/
def regC7 : Node := Node.mk TokType.Progression "" (some 0) 3 "a\nb" [] []

theorem c7_no_newlines_witness :
    (find_all_by_type regC7 TokType.Directive).any
      (fun d => d.dat.contains 'x') = false ∧
    regC7.raw.toList[1]? = some '\n' ∧
    check_no_newlines regC7 [] = ([⟨"102", ERROR, some 1,
      "Newline characters not allowed (java compat, use a rawstring)"⟩], none) :=
  ⟨by decide, by decide,
   (c7_no_newlines regC7 []).2.1 (by decide) 1 (by decide)
     (by
       intro j hj
       have hj0 : j = 0 := by omega
       subst hj0
       decide)⟩

theorem typeIn_ne_opencap (t cat : TokType)
    (h : (cat == TokType.OpenCapturing) = false) : typeIn t cat = (t == cat) := by
  unfold typeIn
  rw [h, Bool.and_false, Bool.or_false]

/-- The empty-alternation rule as the specification words it (spec §4.3
rule 103): one position for every Progression node with zero children
whose parent is an Alternation node, the node's start offset or 0 when
absent, in document order. -/
def specEmptyAltPositions (reg : Node) : List Nat :=
  ((preorderP none reg).filter fun pn =>
      pn.2.ty == TokType.Progression && pn.2.children.isEmpty &&
        (match pn.1 with
         | some p => p.ty == TokType.Alternation
         | none => false)).map
    fun pn => pn.2.strt.getD 0

/-- A tree for the root-level pattern a| with an empty second branch
starting at offset 2. -/
def rootAltTree : Node :=
  Node.mk TokType.Alternation "" none 2 "a|"
    [Node.mk TokType.Progression "" (some 0) 1 ""
      [Node.mk TokType.Literal "a" (some 0) 1 "" [] []] [],
     Node.mk TokType.Progression "" (some 2) 2 "" [] []] []

/-- A tree for the nested pattern (a|) with an empty branch starting at
offset 3 inside a capturing group. -/
def nestedAltTree : Node :=
  Node.mk TokType.Progression "" none 4 "(a|)"
    [Node.mk TokType.OpenCapturing "(" (some 0) 4 ""
      [Node.mk TokType.Alternation "" (some 1) 3 ""
        [Node.mk TokType.Progression "" (some 1) 2 ""
          [Node.mk TokType.Literal "a" (some 1) 2 "" [] []] [],
         Node.mk TokType.Progression "" (some 3) 3 "" [] []] []] []] []

/-- C8: check_no_empty_alternations appends, in document order, exactly
one code-103 diagnostic per empty Progression branch of an Alternation
node, at the branch's start offset or 0 when absent, and raises nothing;
in particular the root-level a| tree and the nested (a|) tree each yield
exactly one diagnostic. -/
theorem c8_empty_alternations (reg : Node) (errs : List Diag) :
    check_no_empty_alternations reg errs =
      (errs ++ (specEmptyAltPositions reg).map mk103, none) ∧
    check_no_empty_alternations rootAltTree [] = ([mk103 2], none) ∧
    check_no_empty_alternations nestedAltTree [] = ([mk103 3], none) := by
  refine ⟨?_, by decide, by decide⟩
  unfold check_no_empty_alternations specEmptyAltPositions find_all_by_typeP
  rw [List.filter_filter, List.map_map]
  have hfil : ((preorderP none reg).filter fun pn =>
        (pn.2.children.isEmpty &&
          (match pn.1 with
           | some p => p.ty == TokType.Alternation
           | none => false)) && typeIn pn.2.ty TokType.Progression) =
      ((preorderP none reg).filter fun pn =>
        pn.2.ty == TokType.Progression && pn.2.children.isEmpty &&
          (match pn.1 with
           | some p => p.ty == TokType.Alternation
           | none => false)) := by
    apply List.filter_congr
    intro pn _
    rw [typeIn_ne_opencap pn.2.ty TokType.Progression rfl,
        Bool.and_comm (pn.2.children.isEmpty &&
          (match pn.1 with
           | some p => p.ty == TokType.Alternation
           | none => false)) (pn.2.ty == TokType.Progression),
        Bool.and_assoc]
  rw [hfil]
  rfl

/-- The first violating adjacent branch pair of one alternation, as the
specification words rule 105: scanning branch texts in order, the first
pair whose current text starts with the previous text. -/
def specFirstViolation : Option String → List Node → Option (String × String)
  | _, [] => none
  | none, i :: rest => specFirstViolation (some (branchText i)) rest
  | some p, i :: rest =>
    if pyStartsWith (branchText i) p then some (p, branchText i)
    else specFirstViolation (some (branchText i)) rest

theorem ordInner_viol (nst : Option Nat) :
    ∀ (cs : List Node) (prev : Option String) (errs : List Diag) (p t : String),
      (∀ i ∈ cs, i.ty = TokType.Progression) →
      (∀ i ∈ cs, i.children.all litLike = true) →
      specFirstViolation prev cs = some (p, t) →
      ordInner nst cs prev errs = (errs ++ [mk105 nst p t], false, none) := by
  intro cs
  induction cs with
  | nil =>
    intro prev errs p t _ _ hv
    cases prev <;> simp [specFirstViolation] at hv
  | cons i rest ih =>
    intro prev errs p t hprog hlit hv
    have hity : i.ty = TokType.Progression := hprog i (by simp)
    have hilit : i.children.all litLike = true := hlit i (by simp)
    have hprog2 : ∀ j ∈ rest, j.ty = TokType.Progression :=
      fun j hj => hprog j (List.mem_cons_of_mem _ hj)
    have hlit2 : ∀ j ∈ rest, j.children.all litLike = true :=
      fun j hj => hlit j (List.mem_cons_of_mem _ hj)
    cases prev with
    | none =>
      simp only [specFirstViolation] at hv
      simp only [ordInner, hity, ne_eq, not_true_eq_false, if_false, hilit,
        Bool.not_true, Bool.false_eq_true]
      exact ih (some (branchText i)) errs p t hprog2 hlit2 hv
    | some q =>
      simp only [specFirstViolation] at hv
      by_cases hs : pyStartsWith (branchText i) q
      · rw [if_pos hs] at hv
        injection hv with hv
        have hp : q = p := congrArg Prod.fst hv
        have ht : branchText i = t := congrArg Prod.snd hv
        subst hp
        subst ht
        simp only [ordInner, hity, ne_eq, not_true_eq_false, if_false, hilit,
          Bool.not_true, Bool.false_eq_true, hs, if_true]
      · rw [if_neg hs] at hv
        simp only [ordInner, hity, ne_eq, not_true_eq_false, if_false, hilit,
          Bool.not_true, Bool.false_eq_true, hs]
        exact ih (some (branchText i)) errs p t hprog2 hlit2 hv

/-- A tree for the pattern a|ab: one alternation, both branches built only
of literal tokens, the second branch's text extending the first. -/
def treeAab : Node :=
  Node.mk TokType.Alternation "" (some 0) 4 "a|ab"
    [Node.mk TokType.Progression "" (some 0) 1 ""
      [Node.mk TokType.Literal "a" (some 0) 1 "" [] []] [],
     Node.mk TokType.Progression "" (some 2) 4 ""
      [Node.mk TokType.Literal "a" (some 2) 3 "" [] [],
       Node.mk TokType.Literal "b" (some 3) 4 "" [] []] []] []

/-- C3: for an Alternation node whose branches are all Progression nodes
holding only literal-like tokens and whose branch texts contain a
violating adjacent pair, the scan of that node appends exactly one
code-105 ERROR diagnostic at the node's start offset naming the first
violating pair of branch texts, then stops scanning the node (no early
return, no failure); on the whole a|ab tree the checker yields exactly one
diagnostic naming a and ab. -/
theorem c3_prefix_one_diag (nst : Option Nat) (cs : List Node)
    (errs : List Diag) (p t : String)
    (hprog : ∀ i ∈ cs, i.ty = TokType.Progression)
    (hlit : ∀ i ∈ cs, i.children.all litLike = true)
    (hviol : specFirstViolation none cs = some (p, t)) :
    ordInner nst cs none errs = (errs ++ [mk105 nst p t], false, none) ∧
    check_prefix_ordering treeAab [] = ([mk105 (some 0) "a" "ab"], none) :=
  ⟨ordInner_viol nst cs none errs p t hprog hlit hviol, by decide⟩

theorem c3_prefix_one_diag_witness :
    specFirstViolation none treeAab.children = some ("a", "ab") ∧
    ordInner (some 0) treeAab.children none [] =
      ([mk105 (some 0) "a" "ab"], false, none) :=
  ⟨by decide,
   (c3_prefix_one_diag (some 0) treeAab.children [] "a" "ab"
      (by decide) (by decide) (by decide)).1⟩

/-- The abstention condition of rule 105 as the specification words it:
true when, scanning the branches in order, a branch containing a
non-literal token is reached before any violating adjacent pair. -/
def specAbst : Option String → List Node → Bool
  | _, [] => false
  | none, i :: rest =>
    if !(i.children.all litLike) then true
    else specAbst (some (branchText i)) rest
  | some p, i :: rest =>
    if !(i.children.all litLike) then true
    else if pyStartsWith (branchText i) p then false
    else specAbst (some (branchText i)) rest

theorem ordInner_abst (nst : Option Nat) :
    ∀ (cs : List Node) (prev : Option String) (errs : List Diag),
      (∀ i ∈ cs, i.ty = TokType.Progression) →
      specAbst prev cs = true →
      ordInner nst cs prev errs = (errs, true, none) := by
  intro cs
  induction cs with
  | nil =>
    intro prev errs _ ha
    cases prev <;> simp [specAbst] at ha
  | cons i rest ih =>
    intro prev errs hprog ha
    have hity : i.ty = TokType.Progression := hprog i (by simp)
    have hprog2 : ∀ j ∈ rest, j.ty = TokType.Progression :=
      fun j hj => hprog j (List.mem_cons_of_mem _ hj)
    cases prev with
    | none =>
      simp only [specAbst] at ha
      by_cases hl : (i.children.all litLike) = true
      · rw [if_neg (by simp [hl])] at ha
        simp only [ordInner, hity, ne_eq, not_true_eq_false, if_false, hl,
          Bool.not_true, Bool.false_eq_true]
        exact ih (some (branchText i)) errs hprog2 ha
      · have hl2 : (i.children.all litLike) = false := by
          cases h : i.children.all litLike
          · rfl
          · exact absurd h hl
        simp only [ordInner, hity, ne_eq, not_true_eq_false, if_false, hl2,
          Bool.not_false, if_true]
    | some p =>
      simp only [specAbst] at ha
      by_cases hl : (i.children.all litLike) = true
      · rw [if_neg (by simp [hl])] at ha
        by_cases hs : pyStartsWith (branchText i) p = true
        · rw [if_pos hs] at ha
          exact absurd ha (by simp)
        · rw [if_neg hs] at ha
          simp only [ordInner, hity, ne_eq, not_true_eq_false, if_false, hl,
            Bool.not_true, Bool.false_eq_true, hs]
          exact ih (some (branchText i)) errs hprog2 ha
      · have hl2 : (i.children.all litLike) = false := by
          cases h : i.children.all litLike
          · rfl
          · exact absurd h hl
        simp only [ordInner, hity, ne_eq, not_true_eq_false, if_false, hl2,
          Bool.not_false, if_true]

/-- The first alternation of the witness tree: branches (x) and z, the
first containing a capturing group, hence not literal-like. -/
def altWithGroup : Node :=
  Node.mk TokType.Alternation "" (some 1) 6 ""
    [Node.mk TokType.Progression "" (some 1) 4 ""
      [Node.mk TokType.OpenCapturing "(" (some 1) 4 ""
        [Node.mk TokType.Literal "y" (some 2) 3 "" [] []] []] [],
     Node.mk TokType.Progression "" (some 5) 6 ""
      [Node.mk TokType.Literal "z" (some 5) 6 "" [] []] []] []

/-- The second alternation of the witness tree: literal-only branches a
and ab, the second extending the first (a prefix violation). -/
def altViolating : Node :=
  Node.mk TokType.Alternation "" (some 8) 12 ""
    [Node.mk TokType.Progression "" (some 8) 9 ""
      [Node.mk TokType.Literal "a" (some 8) 9 "" [] []] [],
     Node.mk TokType.Progression "" (some 10) 12 ""
      [Node.mk TokType.Literal "a" (some 10) 11 "" [] [],
       Node.mk TokType.Literal "b" (some 11) 12 "" [] []] []] []

/-- A tree for the pattern ((y)|z)(a|ab): the first alternation in
document order holds a non-literal branch, the second is literal-only and
violating. -/
def abstTree : Node :=
  Node.mk TokType.Progression "" none 13 "((y)|z)(a|ab)"
    [altWithGroup, altViolating] []

/-- A tree with a single alternation whose branches are a, ab and (y): a
non-literal token occurs in a branch, yet the violating pair a, ab is
scanned first. -/
def badAltTree : Node :=
  Node.mk TokType.Alternation "" (some 0) 9 "a|ab|(y)"
    [Node.mk TokType.Progression "" (some 0) 1 ""
      [Node.mk TokType.Literal "a" (some 0) 1 "" [] []] [],
     Node.mk TokType.Progression "" (some 2) 4 ""
      [Node.mk TokType.Literal "a" (some 2) 3 "" [] [],
       Node.mk TokType.Literal "b" (some 3) 4 "" [] []] [],
     Node.mk TokType.Progression "" (some 5) 8 ""
      [Node.mk TokType.OpenCapturing "(" (some 5) 8 ""
        [Node.mk TokType.Literal "y" (some 6) 7 "" [] []] []] []] []

/-- C2 is false as stated: badAltTree has an alternation branch containing
a non-literal token, yet check_prefix_ordering yields a diagnostic,
because the violating pair a, ab is scanned (and the alternation is left
via break) before the non-literal branch is reached. -/
theorem c2_counterexample :
    ((find_all_by_type badAltTree TokType.Alternation).any fun n =>
        n.children.any fun i => !(i.children.all litLike)) = true ∧
    check_prefix_ordering badAltTree [] ≠ ([], none) := by
  constructor
  · decide
  · decide

/-- C2 (amended): the safe abstention holds from the point the scan
reaches a non-literal token onward: if the first Alternation node in
document order reaches a branch containing a non-literal token before any
violating adjacent pair (its branches being Progression nodes), then
check_prefix_ordering returns with zero diagnostics for the entire tree,
even when a later literal-only Alternation node satisfies the prefix
condition; diagnostics emitted before that point (for earlier alternation
nodes) are retained rather than discarded. -/
theorem c2_prefix_abstention (reg : Node) (errs : List Diag) (n : Node)
    (rest : List Node)
    (hfind : find_all_by_type reg TokType.Alternation = n :: rest)
    (hprog : ∀ i ∈ n.children, i.ty = TokType.Progression)
    (habst : specAbst none n.children = true) :
    check_prefix_ordering reg errs = (errs, none) := by
  unfold check_prefix_ordering
  rw [hfind]
  simp only [ordOuter]
  rw [ordInner_abst n.strt n.children none errs hprog habst]

theorem c2_prefix_abstention_witness :
    specAbst none altWithGroup.children = true ∧
    ((find_all_by_type abstTree TokType.Alternation).any fun n =>
        n.children.any fun i => !(i.children.all litLike)) = true ∧
    specFirstViolation none altViolating.children = some ("a", "ab") ∧
    check_prefix_ordering abstTree [] = ([], none) :=
  ⟨by decide, by decide, by decide,
   c2_prefix_abstention abstTree [] altWithGroup [altViolating] rfl
     (by decide) (by decide)⟩

/-- Endpoint node a of the witness range a-5. -/
def aLitNode : Node := Node.mk TokType.Literal "a" (some 1) 2 "" [] []

/-- Endpoint node 5 of the witness range a-5. -/
def d5Node : Node := Node.mk TokType.Literal "5" (some 3) 4 "" [] []

/-- A tree for the pattern [a-5]: one char class whose single range has a
letter start and a digit end with a numerically smaller code point, so the
not-homogeneous and the goes-backwards diagnostics both fire. -/
def bothDiagTree : Node :=
  Node.mk TokType.Progression "" none 5 "[a-5]"
    [Node.mk TokType.CharClass "" (some 0) 5 "" []
      [(aLitNode, some d5Node)]] []

/-- C4: for a CharRange whose two endpoints are literal-typed with
single-character payloads, the checker appends the not-homogeneous
code-104 diagnostic at a.start exactly when the endpoints' coarse
categories differ and, independently, the goes-backwards code-104
diagnostic at a.start exactly when a's code point is >= b's, in that
order, raising nothing; on the concrete [a-5] tree both fire for the same
range. -/
theorem c4_homogeneous_ranges (cstrt : Option Nat) (a b : Node)
    (errs : List Diag)
    (ha : typeIn a.ty TokType.Literal = true)
    (hb : typeIn b.ty TokType.Literal = true)
    (hla : a.dat.length = 1) (hlb : b.dat.length = 1) :
    rangePair cstrt (a, some b) errs =
      (errs ++
        (if charclass (firstChar a.dat) ≠ charclass (firstChar b.dat) then
          [⟨"104", ERROR, a.strt, msgHom a.strt⟩] else []) ++
        (if (firstChar a.dat).toNat ≥ (firstChar b.dat).toNat then
          [⟨"104", ERROR, a.strt, msgBack a.strt⟩] else []),
       none) ∧
    check_charclass_homogeneous_ranges bothDiagTree [] =
      ([⟨"104", ERROR, some 1, msgHom (some 1)⟩,
        ⟨"104", ERROR, some 1, msgBack (some 1)⟩], none) := by
  constructor
  · simp only [rangePair, ha, hb, Bool.and_self, if_true, hla, hlb]
    by_cases h1 : charclass (firstChar a.dat) ≠ charclass (firstChar b.dat) <;>
      by_cases h2 : (firstChar a.dat).toNat ≥ (firstChar b.dat).toNat <;>
      simp [h1, h2, List.append_assoc]
  · decide

theorem c4_homogeneous_ranges_witness :
    typeIn aLitNode.ty TokType.Literal = true ∧
    charclass (firstChar aLitNode.dat) ≠ charclass (firstChar d5Node.dat) ∧
    (firstChar aLitNode.dat).toNat ≥ (firstChar d5Node.dat).toNat ∧
    rangePair (some 0) (aLitNode, some d5Node) [] =
      ([⟨"104", ERROR, some 1, msgHom (some 1)⟩,
        ⟨"104", ERROR, some 1, msgBack (some 1)⟩], none) :=
  ⟨by decide, by decide, by decide, by
    have h := (c4_homogeneous_ranges (some 0) aLitNode d5Node []
      (by decide) (by decide) (by decide) (by decide)).1
    rw [if_pos (by decide), if_pos (by decide)] at h
    simpa using h⟩

theorem overlapLoop_appends : ∀ (pairs : List (Option Node × Node))
    (prevEnd : Nat) (errs : List Diag),
    overlapLoop pairs prevEnd errs =
      (errs ++ (overlapLoop pairs prevEnd []).1,
       (overlapLoop pairs prevEnd []).2) := by
  intro pairs
  induction pairs with
  | nil => intro prevEnd errs; simp [overlapLoop]
  | cons pi rest ih =>
    intro prevEnd errs
    rcases pi with ⟨par, i⟩
    simp only [overlapLoop]
    by_cases hst : i.strt ≠ some prevEnd
    · rw [if_pos hst, if_pos hst]
      cases par with
      | none => simp
      | some p =>
        simp only [List.nil_append]
        rw [ih]
        conv_rhs => rw [ih]
        simp [List.append_assoc]
    · rw [if_neg hst, if_neg hst]
      cases par with
      | none => simp
      | some p =>
        simp only
        exact ih _ errs

theorem overlapLoop_exn : ∀ (pairs : List (Option Node × Node))
    (prevEnd : Nat) (errs : List Diag),
    (∀ pn ∈ pairs, pn.1.isSome = true) →
    (overlapLoop pairs prevEnd errs).2.2 = none := by
  intro pairs
  induction pairs with
  | nil => intro prevEnd errs _; simp [overlapLoop]
  | cons pi rest ih =>
    intro prevEnd errs hpar
    rcases pi with ⟨par, i⟩
    have hps : par.isSome = true := hpar (par, i) (by simp)
    cases par with
    | none => simp at hps
    | some p =>
      simp only [overlapLoop]
      split
      · exact ih _ _ (fun pn hpn => hpar pn (List.mem_cons_of_mem _ hpn))
      · exact ih _ _ (fun pn hpn => hpar pn (List.mem_cons_of_mem _ hpn))

/-- The tiling condition of rule 108 as the specification words it: each
capturing group starts exactly at the running end (initially 0), the
running end advances to the group's end, extended by the parent payload
length under a Repetition parent, and finally equals the tree's end. -/
def groupsTile : List (Option Node × Node) → Nat → Nat → Bool
  | [], prevEnd, regEnd => prevEnd == regEnd
  | (par, i) :: rest, prevEnd, regEnd =>
    (i.strt == some prevEnd) &&
      groupsTile rest
        (match par with
         | some p => if p.ty = TokType.Repetition then i.fin + p.dat.length else i.fin
         | none => i.fin) regEnd

theorem overlapLoop_tile : ∀ (pairs : List (Option Node × Node))
    (prevEnd regEnd : Nat) (errs : List Diag),
    (∀ pn ∈ pairs, pn.1.isSome = true) →
    (((overlapLoop pairs prevEnd errs).1 = errs ∧
      (overlapLoop pairs prevEnd errs).2.1 = regEnd) ↔
     groupsTile pairs prevEnd regEnd = true) := by
  intro pairs
  induction pairs with
  | nil =>
    intro prevEnd regEnd errs _
    simp [overlapLoop, groupsTile]
  | cons pi rest ih =>
    intro prevEnd regEnd errs hpar
    rcases pi with ⟨par, i⟩
    have hps : par.isSome = true := hpar (par, i) (by simp)
    cases par with
    | none => simp at hps
    | some p =>
      simp only [overlapLoop, groupsTile]
      by_cases hst : i.strt = some prevEnd
      · rw [if_neg (not_ne_iff.mpr hst)]
        rw [show (i.strt == some prevEnd) = true by simp [hst], Bool.true_and]
        exact ih _ regEnd errs (fun pn hpn => hpar pn (List.mem_cons_of_mem _ hpn))
      · rw [if_pos hst]
        rw [show (i.strt == some prevEnd) = false by simp [hst], Bool.false_and]
        constructor
        · intro hcontra
          exfalso
          have h1 := hcontra.1
          rw [overlapLoop_appends] at h1
          have h2 := congrArg List.length h1
          simp [List.length_append] at h2
        · intro hcontra
          exact absurd hcontra (by simp)

/-- First capturing group of the tiling witness, spanning offsets 0-3. -/
def tileG1 : Node :=
  Node.mk TokType.OpenCapturing "(" (some 0) 3 ""
    [Node.mk TokType.Literal "a" (some 1) 2 "" [] []] []

/-- Repetition wrapping the first group, with payload + of length 1. -/
def tileRep : Node := Node.mk TokType.Repetition "+" (some 0) 4 "" [tileG1] []

/-- Second capturing group of the tiling witness, spanning offsets 4-7. -/
def tileG2 : Node :=
  Node.mk TokType.OpenCapturing "(" (some 4) 7 ""
    [Node.mk TokType.Literal "b" (some 5) 6 "" [] []] []

/-- A tree for the pattern (a)+(b): the two capturing groups tile the
whole pattern once the repetition payload is accounted for. -/
def tileTree : Node :=
  Node.mk TokType.Progression "" none 7 "(a)+(b)" [tileRep, tileG2] []

/-- C5: under the always-satisfied contract assumption that every found
capturing-group node has a parent, manual_overlap raises nothing and
appends no diagnostic exactly when the capturing groups tile the whole
pattern: each group starts at the running previous end (initialised to 0,
advanced to each group's end and extended by the parent payload length
when the parent is a Repetition node) and the final running end equals the
tree's end offset; any gap, overlap, nesting or trailing text falsifies
the tiling condition and yields at least one code-108 diagnostic. -/
theorem c5_manual_overlap (reg : Node) (errs : List Diag) (dn : Nat)
    (hpar : ∀ pn ∈ find_all_by_typeP reg TokType.OpenCapturing,
      pn.1.isSome = true) :
    (manual_overlap reg errs dn).2 = none ∧
    ((manual_overlap reg errs dn).1 = errs ↔
      groupsTile (find_all_by_typeP reg TokType.OpenCapturing) 0 reg.fin
        = true) := by
  unfold manual_overlap
  rcases hx : overlapLoop (find_all_by_typeP reg TokType.OpenCapturing) 0 errs
    with ⟨e2, pe, ex⟩
  have hex : ex = none := by
    have h := overlapLoop_exn (find_all_by_typeP reg TokType.OpenCapturing)
      0 errs hpar
    rw [hx] at h
    exact h
  subst hex
  have hiff := overlapLoop_tile (find_all_by_typeP reg TokType.OpenCapturing)
    0 reg.fin errs hpar
  rw [hx] at hiff
  simp only at hiff
  have happ := overlapLoop_appends (find_all_by_typeP reg TokType.OpenCapturing)
    0 errs
  rw [hx] at happ
  have he2 : e2 = errs ++ (overlapLoop
      (find_all_by_typeP reg TokType.OpenCapturing) 0 []).1 := by
    exact congrArg Prod.fst happ
  simp only
  by_cases hpe : pe ≠ reg.fin
  · rw [if_pos hpe]
    constructor
    · rfl
    · constructor
      · intro h1
        exfalso
        rw [he2] at h1
        have h2 := congrArg List.length h1
        simp [List.length_append] at h2
      · intro ht
        exfalso
        exact hpe (hiff.mpr ht).2
  · rw [if_neg hpe]
    have hpe2 : pe = reg.fin := not_ne_iff.mp hpe
    exact ⟨rfl, fun h1 => hiff.mp ⟨h1, hpe2⟩, fun ht => (hiff.mpr ht).1⟩

theorem c5_manual_overlap_witness :
    groupsTile (find_all_by_typeP tileTree TokType.OpenCapturing) 0
      tileTree.fin = true ∧
    (manual_overlap tileTree [] 2).1 = [] ∧
    (manual_overlap tileTree [] 2).2 = none :=
  ⟨by decide,
   (c5_manual_overlap tileTree [] 2 (by decide)).2.mpr (by decide),
   (c5_manual_overlap tileTree [] 2 (by decide)).1⟩

/-- The failing-element test of the possibility expander: a structural
Node or a CharRange, the two isinstance branches that raise. -/
def elemStructural : AltElem → Bool
  | AltElem.node _ => true
  | AltElem.crange _ _ => true
  | AltElem.lit _ => false

theorem helper_bad : ∀ (br : List AltElem), br.any elemStructural = true →
    (alternation_helper br).1 = [] ∧
    ((alternation_helper br).2).isSome = true := by
  intro br
  induction br with
  | nil => intro h; simp at h
  | cons e rest ih =>
    intro h
    cases e with
    | node n => simp [alternation_helper]
    | crange a b => simp [alternation_helper]
    | lit s =>
      have h2 : rest.any elemStructural = true := by
        simpa [elemStructural] using h
      rcases hh : alternation_helper rest with ⟨js, ex⟩
      have hr := ih h2
      rw [hh] at hr
      have hj : js = [] := hr.1
      have hx : ex.isSome = true := hr.2
      simp only [alternation_helper, hh]
      simp [hj, hx]

theorem helper_good : ∀ (br : List AltElem), br.any elemStructural = false →
    (alternation_helper br).2 = none := by
  intro br
  induction br with
  | nil => intro _; simp [alternation_helper]
  | cons e rest ih =>
    intro h
    cases e with
    | node n => simp [elemStructural] at h
    | crange a b => simp [elemStructural] at h
    | lit s =>
      have h2 : rest.any elemStructural = false := by
        simpa [elemStructural] using h
      rcases hh : alternation_helper rest with ⟨js, ex⟩
      have hr := ih h2
      rw [hh] at hr
      simp only [alternation_helper, hh]
      simpa using hr

/-- C9 (amended): whenever any branch contains a structural Node or a
CharRange element, get_alternation_possibilities does raise, and the
strings yielded before the failure are exactly the expansions of the
all-literal branches preceding the first offending branch; the offending
branch itself yields nothing (within one branch the failure precedes any
yield), but strings of earlier branches are produced, so the failure is
immediate only from the offending branch onward. -/
theorem c9_fail_fast (alt : List (List AltElem)) :
    (alt.any fun br => br.any elemStructural) = true →
    ((get_alternation_possibilities alt).2).isSome = true ∧
    (get_alternation_possibilities alt).1 =
      ((alt.takeWhile fun br => !(br.any elemStructural)).map
        fun br => (alternation_helper br).1).flatten := by
  induction alt with
  | nil => intro h; simp at h
  | cons br rest ih =>
    intro hbad
    by_cases hbr : br.any elemStructural = true
    · have hb := helper_bad br hbr
      rcases hh : alternation_helper br with ⟨js, ex⟩
      rw [hh] at hb
      cases ex with
      | none => simp at hb
      | some e =>
        have hj : js = [] := hb.1
        simp only [get_alternation_possibilities, hh]
        refine ⟨by simp, ?_⟩
        simp [List.takeWhile_cons, hbr, hj]
    · have hbrf : br.any elemStructural = false := by
        cases h : br.any elemStructural
        · rfl
        · exact absurd h hbr
      have hex := helper_good br hbrf
      rcases hh : alternation_helper br with ⟨js, ex⟩
      rw [hh] at hex
      subst hex
      have hbad2 : (rest.any fun br => br.any elemStructural) = true := by
        simpa [hbrf] using hbad
      rcases hrec : get_alternation_possibilities rest with ⟨ks, ex2⟩
      have ihh := ih hbad2
      rw [hrec] at ihh
      have hx2 : ex2.isSome = true := ihh.1
      have hks : ks = ((rest.takeWhile fun br => !(br.any elemStructural)).map
          fun br => (alternation_helper br).1).flatten := ihh.2
      simp only [get_alternation_possibilities, hh, hrec]
      refine ⟨by simpa using hx2, ?_⟩
      simp [List.takeWhile_cons, hbrf, hh, hks]

/-- The expander input [[lit a], [Node]]: a structural element sits in the
second branch. -/
def c9BadInput : List (List AltElem) :=
  [[AltElem.lit "a"],
   [AltElem.node (Node.mk TokType.Literal "x" (some 0) 1 "" [] [])]]

/-- C9 is false as stated: on an input whose second branch holds a Node,
the expansion yields the literal string a before the failure, so a
partial result is produced. -/
theorem c9_counterexample :
    (c9BadInput.any fun br => br.any elemStructural) = true ∧
    (get_alternation_possibilities c9BadInput).1 = ["a"] ∧
    (get_alternation_possibilities c9BadInput).1 ≠ [] := by
  refine ⟨by decide, by decide, by decide⟩

theorem c9_fail_fast_witness :
    (c9BadInput.any fun br => br.any elemStructural) = true ∧
    ((get_alternation_possibilities c9BadInput).2).isSome = true :=
  ⟨by decide, (c9_fail_fast c9BadInput (by decide)).1⟩

/-- A char-class member that trips the single-character assertions of the
range checker: a CharRange whose two endpoints are both literal-typed
while some endpoint payload is not a single character. -/
def badAssertItem : Node × Option Node → Bool
  | (_, none) => false
  | (a, some b) =>
    typeIn a.ty TokType.Literal && typeIn b.ty TokType.Literal &&
      (a.dat.length != 1 || b.dat.length != 1)

theorem anyCongr {l : List α} {p q : α → Bool}
    (h : ∀ x ∈ l, p x = q x) : l.any p = l.any q := by
  induction l with
  | nil => rfl
  | cons a l ih =>
    simp only [List.any_cons, h a (by simp),
      ih (fun x hx => h x (List.mem_cons_of_mem _ hx))]

theorem foldExc_exn {f : α → List Diag → List Diag × Option String}
    (hf : AppendsF f) : ∀ (xs : List α) (errs : List Diag),
    ((foldExc f xs errs).2).isSome = xs.any fun x => ((f x []).2).isSome := by
  intro xs
  induction xs with
  | nil => intro errs; simp [foldExc]
  | cons x xs ih =>
    intro errs
    simp only [foldExc, List.any_cons]
    rw [hf x errs]
    cases hx : (f x []).2 with
    | some e => simp
    | none => simp [ih]

theorem rangePair_exn (cstrt : Option Nat) (item : Node × Option Node) :
    ((rangePair cstrt item []).2).isSome = badAssertItem item := by
  match item with
  | (a, none) => simp [rangePair, badAssertItem]
  | (a, some b) =>
    simp only [rangePair, badAssertItem]
    by_cases hab : (typeIn a.ty TokType.Literal &&
        typeIn b.ty TokType.Literal) = true
    · by_cases hla : a.dat.length = 1 <;> by_cases hlb : b.dat.length = 1 <;>
        simp [hab, hla, hlb]
    · have hab2 : (typeIn a.ty TokType.Literal &&
          typeIn b.ty TokType.Literal) = false := by
        cases h : typeIn a.ty TokType.Literal && typeIn b.ty TokType.Literal
        · rfl
        · exact absurd h hab
      rw [if_neg (by simp [hab2])]
      rw [hab2, Bool.false_and]
      split <;> simp

/-- A tree for a class holding the range xy-d where only the first
endpoint is literal-typed: the mixed-range branch fires, not the
assertions. -/
def mixedRangeTree : Node :=
  Node.mk TokType.Progression "" (some 0) 7 "[xy-d]"
    [Node.mk TokType.CharClass "" (some 0) 7 "" []
      [(Node.mk TokType.Literal "xy" (some 1) 3 "" [] [],
        some (Node.mk TokType.OtherTok "d" (some 4) 6 "" [] []))]] []

/-- A tree for a class holding the range xy-z with two literal-typed
endpoints, the first carrying a two-character payload: the assertion
fires. -/
def assertRangeTree : Node :=
  Node.mk TokType.Progression "" (some 0) 6 "[xy-z]"
    [Node.mk TokType.CharClass "" (some 0) 6 "" []
      [(Node.mk TokType.Literal "xy" (some 1) 3 "" [] [],
        some (Node.mk TokType.Literal "z" (some 4) 5 "" [] []))]] []

/-- C10 is false as stated: mixedRangeTree holds a literal-typed CharRange
endpoint whose payload length is 2, yet
check_charclass_homogeneous_ranges raises no assertion failure and does
emit a range diagnostic, because the assertions only run when both
endpoints are literal-typed. -/
theorem c10_counterexample :
    ((find_all_by_type mixedRangeTree TokType.CharClass).any fun c =>
      c.chars.any fun it =>
        match it with
        | (a, some b) =>
          (typeIn a.ty TokType.Literal || typeIn b.ty TokType.Literal) &&
            (a.dat.length != 1 || b.dat.length != 1)
        | (_, none) => false) = true ∧
    check_charclass_homogeneous_ranges mixedRangeTree [] =
      ([⟨"104", ERROR, some 0, msgHom (some 0)⟩], none) := by
  refine ⟨by decide, by decide⟩

/-- C10 (amended): check_charclass_homogeneous_ranges raises an assertion
failure exactly when some char class holds a CharRange whose endpoints are
both literal-typed and some endpoint payload length differs from 1; in
particular on trees whose both-literal ranges all carry single-character
endpoint payloads the assertions never fail, and on the concrete
assertRangeTree the checker raises instead of emitting a range
diagnostic. -/
theorem c10_assertion_condition (reg : Node) (errs : List Diag) :
    (((check_charclass_homogeneous_ranges reg errs).2).isSome =
      ((find_all_by_type reg TokType.CharClass).any fun c =>
        c.chars.any badAssertItem)) ∧
    check_charclass_homogeneous_ranges assertRangeTree [] =
      ([], some "AssertionError()") := by
  refine ⟨?_, by decide⟩
  unfold check_charclass_homogeneous_ranges
  have hf : AppendsF (fun (c : Node) => foldExc (rangePair c.strt) c.chars) :=
    fun c e => foldExc_appends (rangePair_appends c.strt) c.chars e
  rw [foldExc_exn hf]
  apply anyCongr
  intro c _
  rw [foldExc_exn (rangePair_appends c.strt)]
  exact anyCongr (fun it _ => rangePair_exn c.strt it)
